import Mathlib

set_option maxHeartbeats 1000000

namespace AiUpdater

/-! Definitions.  The packaging side (make_update.py): file trees, the
archive walk of zip_project, the latest.zip alias transition, the
git_versioning step sequence and the GitHub release publisher.  The apply
side (updater.py): the run_update pipeline over an explicit world of
configuration, disk, network and deployment state. -/

/-- File contents, modelled as a list of byte values. -/
abbrev Bytes := List Nat

mutual
/-- A file-system tree: a file with contents, or a directory with children. -/
inductive FsTree where
  | file (name : String) (content : Bytes)
  | dir (name : String) (children : FsForest)

/-- The ordered children of a directory; a project directory is modelled by
the forest of its children. -/
inductive FsForest where
  | nil
  | cons (hd : FsTree) (tl : FsForest)
end

/-- One archive entry: its in-archive path (as components, joined by slashes
in the real zip) and the bytes stored for it. -/
structure ZipEntry where
  arcname : List String
  content : Bytes
deriving DecidableEq

/-- EXCLUDE_DIRS of make_update.py. -/
def EXCLUDE_DIRS : List String :=
  [".git", "venv", "__pycache__", ".mypy_cache", ".idea", ".vscode", "logs"]

/-- EXCLUDE_FILES of make_update.py. -/
def EXCLUDE_FILES : List String := [".DS_Store", ".env", ".python-version"]

/-- INCLUDE_ALWAYS of make_update.py. -/
def INCLUDE_ALWAYS : List String := ["/opt/ai-updater/DEVELOPMENT_GUIDE.md"]

/-- os.path.basename for the slash-separated paths used here: the part of
the path after the last slash. -/
def baseName (p : String) : String :=
  String.mk ((p.toList.reverse.takeWhile fun ch => ch ≠ '/').reverse)

/-- The entries written for the plain files of one directory level
(the inner loop over `files` in zip_project): files named in EXCLUDE_FILES
are skipped, the rest are stored at their path relative to the project
root. -/
def levelFiles (pfx : List String) : FsForest → List ZipEntry
  | FsForest.nil => []
  | FsForest.cons (FsTree.file n c) ts =>
      (if n ∈ EXCLUDE_FILES then [] else [⟨pfx ++ [n], c⟩]) ++ levelFiles pfx ts
  | FsForest.cons (FsTree.dir _ _) ts => levelFiles pfx ts

/-- The entries contributed by the subdirectories of one level of the
os.walk in zip_project: a directory named in EXCLUDE_DIRS is pruned before
descent (never visited), any other directory contributes its own files and
then, recursively, the entries below its subdirectories. -/
def levelDirs (pfx : List String) : FsForest → List ZipEntry
  | FsForest.nil => []
  | FsForest.cons (FsTree.file _ _) ts => levelDirs pfx ts
  | FsForest.cons (FsTree.dir n c) ts =>
      (if n ∈ EXCLUDE_DIRS then []
       else levelFiles (pfx ++ [n]) c ++ levelDirs (pfx ++ [n]) c) ++ levelDirs pfx ts

/-- The os.walk loop of zip_project: the files of the current level first,
then the (non-pruned) subtrees in order. -/
def walkLevel (pfx : List String) (ch : FsForest) : List ZipEntry :=
  levelFiles pfx ch ++ levelDirs pfx ch

/-- The full entry list written by zip_project: the tree walk from the
project root, followed by every INCLUDE_ALWAYS file that exists on disk,
stored under its base name.  `disk` maps an absolute path to the contents
of the file there, if any. -/
def zipProjectEntries (tree : FsForest) (disk : String → Option Bytes) : List ZipEntry :=
  walkLevel [] tree ++
    INCLUDE_ALWAYS.filterMap fun p => (disk p).map fun c => ⟨[baseName p], c⟩

/-- A project tree whose root contains a regular file that happens to share
the base name of the INCLUDE_ALWAYS auxiliary file. -/
def c8tree : FsForest :=
  FsForest.cons (FsTree.file "DEVELOPMENT_GUIDE.md" [1]) FsForest.nil

/-- Disk state in which the configured auxiliary file exists with contents
[2]. -/
def c8disk : String → Option Bytes :=
  fun p => if p = "/opt/ai-updater/DEVELOPMENT_GUIDE.md" then some [2] else none

/-- The update-directory state for one project, as zip_project touches it:
the contents (entry list) of the version-tagged archive file and of the
latest.zip alias, if they exist. -/
structure PkgFS where
  tagged : Option (List ZipEntry)
  latest : Option (List ZipEntry)

/-- Outcome of the archive-writing with-block of zip_project: either the
write completes, or an exception is raised partway with some truncated
entry list already written to the version-tagged file. -/
inductive ZipWrite where
  | complete
  | raisedAfter (written : List ZipEntry)

/-- zip_project of make_update.py as a transition on the update directory:
write the archive at the version-tagged path; only after the with-block
completes, remove a pre-existing latest.zip and hard-link the new archive
as latest.zip. If the write raises partway, the exception propagates and
the alias steps never run. Returns the new state and, on success, the
archive contents (zip_project's normal return). -/
def zip_project (fs : PkgFS) (tree : FsForest) (disk : String → Option Bytes) :
    ZipWrite → PkgFS × Option (List ZipEntry)
  | ZipWrite.raisedAfter written =>
      ({ tagged := some written, latest := fs.latest }, none)
  | ZipWrite.complete =>
      let contents := zipProjectEntries tree disk
      let fs1 : PkgFS := { tagged := some contents, latest := fs.latest }
      let fs2 : PkgFS :=
        if fs1.latest.isSome then { tagged := fs1.tagged, latest := none } else fs1
      let fs3 : PkgFS := { tagged := fs2.tagged, latest := fs2.tagged }
      (fs3, some contents)

/-- Is `needle` a prefix of `hay` (character lists)?  Building block of
Python's `in` substring test. -/
def pfxAt : List Char → List Char → Bool
  | [], _ => true
  | _ :: _, [] => false
  | a :: as, b :: bs => a == b && pfxAt as bs

/-- Does `needle` occur contiguously somewhere in `hay`? -/
def occursIn (needle : List Char) : List Char → Bool
  | [] => pfxAt needle []
  | b :: bs => pfxAt needle (b :: bs) || occursIn needle bs

/-- Python's `needle in hay` substring test for strings. -/
def strContains (hay needle : String) : Bool := occursIn needle.toList hay.toList

/-- Python's str.startswith. -/
def strStartsWith (s p : String) : Bool := pfxAt p.toList s.toList

/-- The member name of an archive entry as the zip stores it: its path
components joined by slashes. -/
def memberName (comps : List String) : String := String.intercalate "/" comps

/-- The member test of run_update's extraction loop: `"venv/bin/python" in
member or "venv/bin/python3" in member` — the protected virtual-environment
interpreter-binary pattern. -/
def protectedMember (nm : String) : Bool :=
  strContains nm "venv/bin/python" || strContains nm "venv/bin/python3"

/-- The extraction loop of run_update: extract every member of the archive
into the deployment directory, in order, except members matching the
protected interpreter pattern, which are skipped.  `d` maps a relative
member path inside the deployment directory to the contents of the file
there. -/
def extractArchive (archive : List ZipEntry) (d : String → Option Bytes) :
    String → Option Bytes :=
  archive.foldl
    (fun acc e =>
      if protectedMember (memberName e.arcname) then acc
      else fun q => if q = memberName e.arcname then some e.content else acc q)
    d

/-- One project's configuration entry (config.yaml). -/
structure ProjInfo where
  path : String
  update_url : String
  service : Option String
deriving DecidableEq

/-- The world run_update acts on: the loaded PROJECTS mapping, the local
filesystem at absolute paths (for local update_url resolution), the
network (status and body of a GET), the optional checksum sidecar next to
the fetched artifact, the content-hash function, and the files of the
project's deployment directory, keyed by relative path. -/
structure World where
  projects : List (String × ProjInfo)
  localDisk : String → Option (List ZipEntry)
  net : String → Nat × List ZipEntry
  sidecar : Option String
  sha : List ZipEntry → String
  deploy : String → Option Bytes

/-- What one invocation of run_update produces: the returned message or
raised error, the deployment directory afterwards, and the trace of
best-effort (check=False) subprocess commands it issued with their
outcomes. -/
structure UpdateOut where
  result : Except String String
  deploy : String → Option Bytes
  sideFx : List (String × Bool)

/-- The network branch of run_update's resolve step: a non-200 status is a
hard failure, otherwise the body is the fetched archive. -/
def netFetch (w : World) (url : String) : Except String (List ZipEntry) :=
  if (w.net url).1 = 200 then Except.ok (w.net url).2
  else Except.error ("Download fehlgeschlagen (" ++ toString (w.net url).1 ++ ")")

/-- The resolve step of run_update: if update_url starts with a slash and
names an existing local file, its bytes are copied; otherwise the string
is fetched over the network. -/
def resolveSource (w : World) (url : String) : Except String (List ZipEntry) :=
  match w.localDisk url with
  | some a => if strStartsWith url "/" then Except.ok a else netFetch w url
  | none => netFetch w url

/-- run_update's success message for a project. -/
def updateMsg (name : String) : String := name ++ " erfolgreich aktualisiert."

/-- run_update's error for a name absent from the loaded configuration. -/
def unknownProjectMsg (name : String) : String :=
  "Projekt \x27" ++ name ++ "\x27 nicht in config.yaml definiert"

/-- run_update's error for a checksum-sidecar mismatch. -/
def shaMismatchMsg : String := "SHA256 mismatch – Update abgebrochen"

/-- The best-effort tail of run_update (steps 4 and 5): git add/commit/push
and, when a service is configured, its restart — all run with check=False,
so their outcomes (given by the oracle `fx`) are recorded but never alter
control flow. -/
def sideFxList (fx : String → Bool) (service : Option String) : List (String × Bool) :=
  [("git add .", fx "git add ."),
   ("git commit", fx "git commit"),
   ("git push", fx "git push")] ++
   (match service with
    | some s => [("sudo systemctl restart " ++ s, fx ("sudo systemctl restart " ++ s))]
    | none => [])

/-- Does the optional verify step of run_update pass?  It passes when no
sidecar exists, or when the recorded hash equals the archive's content
hash. -/
def sidecarOk (w : World) (archive : List ZipEntry) : Prop :=
  ∀ expected, w.sidecar = some expected → expected = w.sha archive

/-- run_update of updater.py: look the project up, resolve the archive
(local file or network), verify the optional checksum sidecar, extract all
non-protected members over the deployment directory, then run the
best-effort commit/push and service-restart commands.  Each failing step
raises, leaving the deployment directory as it was. -/
def run_update (w : World) (name : String) (fx : String → Bool) : UpdateOut :=
  match w.projects.lookup name with
  | none =>
      { result := Except.error (unknownProjectMsg name), deploy := w.deploy, sideFx := [] }
  | some info =>
      match resolveSource w info.update_url with
      | Except.error e => { result := Except.error e, deploy := w.deploy, sideFx := [] }
      | Except.ok archive =>
          match w.sidecar with
          | some expected =>
              if expected ≠ w.sha archive then
                { result := Except.error shaMismatchMsg, deploy := w.deploy, sideFx := [] }
              else
                { result := Except.ok (updateMsg name),
                  deploy := extractArchive archive w.deploy,
                  sideFx := sideFxList fx info.service }
          | none =>
              { result := Except.ok (updateMsg name),
                deploy := extractArchive archive w.deploy,
                sideFx := sideFxList fx info.service }

/-- An HTTP response of the serve-mode endpoint. -/
inductive ApiResp where
  | ok (msg : String)
  | err (status : Nat) (detail : String)

/-- The POST /update/{name} handler of serve mode: run run_update, return
its message on success, and surface any raised error as an HTTPException
with status 500 and the error text as detail. -/
def update_api (w : World) (name : String) (fx : String → Bool) : ApiResp :=
  match (run_update w name fx).result with
  | Except.ok msg => ApiResp.ok msg
  | Except.error e => ApiResp.err 500 e

/-- The git commands git_versioning runs, in order. -/
inductive GitStep where
  | fetch
  | pullRebase
  | addAll
  | commit
  | tag
  | push
  | pushTags
deriving DecidableEq

/-- The body of git_versioning's try-block: fetch and pull --rebase run
with check=False (their outcomes never raise), git add . runs with
check=True (a failure raises CalledProcessError), and commit, tag, push
and push --tags again run with check=False.  The oracle `fx` gives each
command's outcome; the value is the list of commands actually run, as an
error when an exception was raised at that point. -/
def git_versioning_body (fx : GitStep → Bool) : Except (List GitStep) (List GitStep) :=
  let pre := [GitStep.fetch, GitStep.pullRebase]
  if fx GitStep.addAll then
    Except.ok (pre ++ [GitStep.addAll, GitStep.commit, GitStep.tag,
                        GitStep.push, GitStep.pushTags])
  else
    Except.error (pre ++ [GitStep.addAll])

/-- git_versioning of make_update.py: the try-block above wrapped in the
`except Exception` handler that logs and swallows any exception.  Returns
the commands run and whether an exception escaped to the caller (it never
does). -/
def git_versioning (fx : GitStep → Bool) : List GitStep × Bool :=
  match git_versioning_body fx with
  | Except.ok l => (l, false)
  | Except.error l => (l, false)

/-- A GitHub release: its id and the tag it is keyed by. -/
structure Release where
  rid : Nat
  tag_name : String
deriving DecidableEq

/-- The remote repository's release state: existing releases and the next
fresh release id. -/
structure GhState where
  releases : List Release
  nextId : Nat
deriving DecidableEq

/-- The GitHub create-release endpoint: posting a tag for which a release
already exists answers 422 (an already_exists error); otherwise a fresh
release with a new id is created and answered with 201. -/
def createRelease (s : GhState) (t : String) : GhState × Nat × Option Nat :=
  if s.releases.any (fun r => r.tag_name == t) then (s, 422, none)
  else ({ releases := s.releases ++ [⟨s.nextId, t⟩], nextId := s.nextId + 1 },
        201, some s.nextId)

/-- The release-creation part of upload_release_to_github of
make_update.py: without a token it skips; otherwise it posts the release,
and on a 422 already_exists conflict lists the repository's releases and
takes the first whose tag_name equals the version tag; a 200/201 answer
yields the fresh release's id; any other status aborts with no release.
Returns the remote state afterwards and the release id used, if any. -/
def upload_release_to_github (tokenPresent : Bool) (s : GhState) (t : String) :
    GhState × Option Nat :=
  if !tokenPresent then (s, none)
  else
    match createRelease s t with
    | (s1, code, ridOpt) =>
        if code = 422 then
          (s1, (s1.releases.find? fun r => r.tag_name == t).map fun r => r.rid)
        else if code = 200 ∨ code = 201 then (s1, ridOpt)
        else (s1, none)

/-- A demo project configuration used by concrete witnesses. -/
def demoInfo : ProjInfo := { path := "/srv/demo", update_url := "/opt/up.zip", service := none }

/-- A demo archive holding a protected interpreter member and a plain
member. -/
def demoArchive : List ZipEntry := [⟨["venv", "bin", "python3"], [5]⟩, ⟨["app.py"], [7]⟩]

/-- A local disk where the demo archive exists at /opt/up.zip. -/
def demoDisk : String → Option (List ZipEntry) :=
  fun p => if p = "/opt/up.zip" then some demoArchive else none

/-- A world whose sidecar hash disagrees with the archive's content hash. -/
def c1world : World :=
  { projects := [("demo", demoInfo)], localDisk := demoDisk,
    net := fun _ => (200, []), sidecar := some "deadbeef",
    sha := fun _ => "0000", deploy := fun _ => none }

/-- A world with no sidecar and a deployed interpreter binary at the
protected path. -/
def c5world : World :=
  { projects := [("demo", demoInfo)], localDisk := demoDisk,
    net := fun _ => (200, []), sidecar := none,
    sha := fun _ => "0000",
    deploy := fun p => if p = "venv/bin/python3" then some [9] else none }

/-- A project whose update_url looks like a local path but exists nowhere
on disk. -/
def c10info : ProjInfo :=
  { path := "/srv/demo", update_url := "/missing/up.zip", service := none }

/-- A world where the slash-prefixed update_url names no local file and the
network answers 404. -/
def c10world : World :=
  { projects := [("demo", c10info)], localDisk := fun _ => none,
    net := fun _ => (404, []), sidecar := none,
    sha := fun _ => "", deploy := fun _ => none }

/-! Theorems. -/

theorem levelFiles_shape (pfx : List String) (ch : FsForest) :
    ∀ e ∈ levelFiles pfx ch, ∃ nm c, e = ⟨pfx ++ [nm], c⟩ ∧ nm ∉ EXCLUDE_FILES := by
  match ch with
  | FsForest.nil =>
      intro e he
      simp [levelFiles] at he
  | FsForest.cons (FsTree.file n c) ts =>
      intro e he
      rw [levelFiles] at he
      rcases List.mem_append.mp he with h1 | h2
      · by_cases hn : n ∈ EXCLUDE_FILES
        · rw [if_pos hn] at h1; simp at h1
        · rw [if_neg hn] at h1
          rcases List.mem_singleton.mp h1 with rfl
          exact ⟨n, c, rfl, hn⟩
      · exact levelFiles_shape pfx ts e h2
  | FsForest.cons (FsTree.dir n c) ts =>
      intro e he
      rw [levelFiles] at he
      exact levelFiles_shape pfx ts e he

theorem levelDirs_shape (pfx : List String) (ts : FsForest) :
    ∀ e ∈ levelDirs pfx ts, ∃ mid nm c, e = ⟨pfx ++ (mid ++ [nm]), c⟩ ∧
      (∀ d ∈ mid, d ∉ EXCLUDE_DIRS) ∧ nm ∉ EXCLUDE_FILES := by
  match ts with
  | FsForest.nil =>
      intro e he
      simp [levelDirs] at he
  | FsForest.cons (FsTree.file n c) rest =>
      intro e he
      rw [levelDirs] at he
      exact levelDirs_shape pfx rest e he
  | FsForest.cons (FsTree.dir n c) rest =>
      intro e he
      rw [levelDirs] at he
      rcases List.mem_append.mp he with h1 | h2
      · by_cases hn : n ∈ EXCLUDE_DIRS
        · rw [if_pos hn] at h1
          simp at h1
        · rw [if_neg hn] at h1
          rcases List.mem_append.mp h1 with hf | hd
          · obtain ⟨nm, cc, hecc, hnm⟩ := levelFiles_shape (pfx ++ [n]) c e hf
            refine ⟨[n], nm, cc, ?_, ?_, hnm⟩
            · rw [hecc]; simp
            · intro d hdm
              rcases List.mem_singleton.mp hdm with rfl
              exact hn
          · obtain ⟨mid, nm, cc, hecc, hmid, hnm⟩ := levelDirs_shape (pfx ++ [n]) c e hd
            refine ⟨n :: mid, nm, cc, ?_, ?_, hnm⟩
            · rw [hecc]; simp
            · intro d hdm
              rcases List.mem_cons.mp hdm with rfl | hdm2
              · exact hn
              · exact hmid d hdm2
      · exact levelDirs_shape pfx rest e h2

theorem walkLevel_shape (tree : FsForest) :
    ∀ e ∈ walkLevel [] tree, ∃ mid nm c, e = ⟨mid ++ [nm], c⟩ ∧
      (∀ d ∈ mid, d ∉ EXCLUDE_DIRS) ∧ nm ∉ EXCLUDE_FILES := by
  intro e he
  rw [walkLevel] at he
  rcases List.mem_append.mp he with hf | hd
  · obtain ⟨nm, c, hecc, hnm⟩ := levelFiles_shape [] tree e hf
    exact ⟨[], nm, c, by simpa using hecc, by simp, hnm⟩
  · obtain ⟨mid, nm, c, hecc, hmid, hnm⟩ := levelDirs_shape [] tree e hd
    exact ⟨mid, nm, c, by simpa using hecc, hmid, hnm⟩

/-- C3: for every directory name D in EXCLUDE_DIRS and every project tree,
no entry of the archive produced by zip_project lies inside a directory
named D — D never occurs among the directory components of an entry's
relative path, so the whole subtree rooted at any directory named D is
pruned; moreover no entry's file name is in EXCLUDE_FILES. -/
theorem zip_project_excludes (D : String) (hD : D ∈ EXCLUDE_DIRS)
    (tree : FsForest) (disk : String → Option Bytes) :
    ∀ e ∈ zipProjectEntries tree disk,
      D ∉ e.arcname.dropLast ∧ e.arcname.getLastD "" ∉ EXCLUDE_FILES := by
  intro e he
  rw [zipProjectEntries] at he
  rcases List.mem_append.mp he with hw | ha
  · obtain ⟨mid, nm, c, rfl, hmid, hnm⟩ := walkLevel_shape tree e hw
    constructor
    · simp only [List.dropLast_concat]
      intro hDmid
      exact hmid D hDmid hD
    · simpa [List.getLastD_concat] using hnm
  · rcases hdisk : disk "/opt/ai-updater/DEVELOPMENT_GUIDE.md" with _ | c
    · simp [INCLUDE_ALWAYS, hdisk] at ha
    · simp [INCLUDE_ALWAYS, hdisk] at ha
      subst ha
      refine ⟨by simp, ?_⟩
      show baseName "/opt/ai-updater/DEVELOPMENT_GUIDE.md" ∉ EXCLUDE_FILES
      decide

/-- C3 witness: the concrete exclusion name ".git", a concrete tree holding
a .git directory, and the archive entry for app.py, at which the exclusion
property is discharged. -/
theorem zip_project_excludes_witness :
    ".git" ∉ (ZipEntry.mk ["app.py"] [0]).arcname.dropLast ∧
    (ZipEntry.mk ["app.py"] [0]).arcname.getLastD "" ∉ EXCLUDE_FILES :=
  zip_project_excludes ".git" (by decide)
    (FsForest.cons
      (FsTree.dir ".git" (FsForest.cons (FsTree.file "x" [3]) FsForest.nil))
      (FsForest.cons (FsTree.file "app.py" [0]) FsForest.nil))
    (fun _ => none) (ZipEntry.mk ["app.py"] [0]) (by decide)

/-- C8 counterexample: with the auxiliary file present on disk, a project
tree whose root holds its own file named DEVELOPMENT_GUIDE.md yields an
archive with TWO entries under that base name (one from the tree walk, one
appended by the INCLUDE_ALWAYS loop), so the archive does not contain the
auxiliary file's base name exactly once for every input tree. -/
theorem zip_project_aux_twice_cex :
    ¬ ((zipProjectEntries c8tree c8disk).countP
        (fun e => e.arcname == ["DEVELOPMENT_GUIDE.md"]) = 1) := by
  decide

/-- C8 amended: the INCLUDE_ALWAYS loop appends exactly one entry, under the
base name, for the configured auxiliary file when it exists on disk, so the
archive always contains that base name at least once, and exactly once
whenever the project tree walk itself contributes no entry with that name
(a root-level project file of the same name adds another). -/
theorem zip_project_aux_appended_once (tree : FsForest) (disk : String → Option Bytes)
    (c : Bytes) (h : disk "/opt/ai-updater/DEVELOPMENT_GUIDE.md" = some c) :
    (zipProjectEntries tree disk).countP (fun e => e.arcname == ["DEVELOPMENT_GUIDE.md"])
      = (walkLevel [] tree).countP (fun e => e.arcname == ["DEVELOPMENT_GUIDE.md"]) + 1
    ∧ ((walkLevel [] tree).countP (fun e => e.arcname == ["DEVELOPMENT_GUIDE.md"]) = 0 →
        (zipProjectEntries tree disk).countP
          (fun e => e.arcname == ["DEVELOPMENT_GUIDE.md"]) = 1) := by
  have hb : baseName "/opt/ai-updater/DEVELOPMENT_GUIDE.md" = "DEVELOPMENT_GUIDE.md" := by
    decide
  have hmain : (zipProjectEntries tree disk).countP
      (fun e => e.arcname == ["DEVELOPMENT_GUIDE.md"])
      = (walkLevel [] tree).countP (fun e => e.arcname == ["DEVELOPMENT_GUIDE.md"]) + 1 := by
    rw [zipProjectEntries, List.countP_append]
    simp [INCLUDE_ALWAYS, h, hb, List.countP_cons]
  exact ⟨hmain, fun h0 => by rw [hmain, h0]⟩

/-- C8 amended, witness: a concrete tree with no clashing name, where the
archive carries DEVELOPMENT_GUIDE.md exactly once. -/
theorem zip_project_aux_appended_once_witness :
    (zipProjectEntries (FsForest.cons (FsTree.file "app.py" [0]) FsForest.nil) c8disk).countP
      (fun e => e.arcname == ["DEVELOPMENT_GUIDE.md"]) = 1 :=
  (zip_project_aux_appended_once
      (FsForest.cons (FsTree.file "app.py" [0]) FsForest.nil) c8disk [2] (by decide)).2
    (by decide)

/-- C2: after zip_project completes normally, latest.zip and the newly
written version-tagged archive hold byte-for-byte the same contents (the
freshly built archive); and if archive creation raises partway, latest.zip
is exactly what it was before the attempt. -/
theorem zip_project_latest_alias (fs : PkgFS) (tree : FsForest)
    (disk : String → Option Bytes) :
    ((zip_project fs tree disk ZipWrite.complete).1.latest
        = (zip_project fs tree disk ZipWrite.complete).1.tagged
      ∧ (zip_project fs tree disk ZipWrite.complete).1.latest
        = some (zipProjectEntries tree disk))
    ∧ ∀ w, (zip_project fs tree disk (ZipWrite.raisedAfter w)).1.latest = fs.latest := by
  refine ⟨⟨?_, ?_⟩, fun w => rfl⟩ <;>
    by_cases hl : fs.latest.isSome <;> simp [zip_project, hl]

theorem pfxAt_self_append : ∀ (n t : List Char), pfxAt n (n ++ t) = true
  | [], _ => rfl
  | a :: as, t => by
      show (a == a && pfxAt as (as ++ t)) = true
      rw [pfxAt_self_append as t, beq_self_eq_true]
      rfl

theorem occursIn_of_pfxAt (n h : List Char) (hp : pfxAt n h = true) :
    occursIn n h = true := by
  cases h with
  | nil => simpa [occursIn] using hp
  | cons b bs => simp [occursIn, hp]

theorem strContains_append_left (s t : String) : strContains (s ++ t) s = true := by
  rw [strContains]
  have hdata : (s ++ t).toList = s.toList ++ t.toList := rfl
  rw [hdata]
  exact occursIn_of_pfxAt _ _ (pfxAt_self_append s.toList t.toList)

theorem extractArchive_protected :
    ∀ (archive : List ZipEntry) (d : String → Option Bytes) (nm : String),
      protectedMember nm = true → extractArchive archive d nm = d nm
  | [], _, _, _ => rfl
  | e :: tl, d, nm, hp => by
      have hstep : extractArchive (e :: tl) d = extractArchive tl
          (if protectedMember (memberName e.arcname) then d
           else fun q => if q = memberName e.arcname then some e.content else d q) := rfl
      rw [hstep, extractArchive_protected tl _ nm hp]
      by_cases he : protectedMember (memberName e.arcname) = true
      · rw [if_pos he]
      · rw [if_neg he]
        have hne : nm ≠ memberName e.arcname := fun hEq => he (hEq ▸ hp)
        simp [hne]

theorem extractArchive_absent :
    ∀ (archive : List ZipEntry) (d : String → Option Bytes) (nm : String),
      (∀ e ∈ archive, memberName e.arcname ≠ nm) → extractArchive archive d nm = d nm
  | [], _, _, _ => rfl
  | e :: tl, d, nm, h => by
      have hstep : extractArchive (e :: tl) d = extractArchive tl
          (if protectedMember (memberName e.arcname) then d
           else fun q => if q = memberName e.arcname then some e.content else d q) := rfl
      rw [hstep,
        extractArchive_absent tl _ nm (fun e' he' => h e' (List.mem_cons_of_mem _ he'))]
      have hne : memberName e.arcname ≠ nm := h e (List.mem_cons_self _ _)
      by_cases he : protectedMember (memberName e.arcname) = true
      · rw [if_pos he]
      · rw [if_neg he]
        simp [Ne.symm hne]

theorem extractArchive_present :
    ∀ (archive : List ZipEntry) (d : String → Option Bytes) (nm : String),
      protectedMember nm = false → (∃ e ∈ archive, memberName e.arcname = nm) →
      ∃ e ∈ archive, memberName e.arcname = nm ∧ extractArchive archive d nm = some e.content
  | [], _, _, _, hex => by simp at hex
  | e :: tl, d, nm, hp, hex => by
      have hstep : extractArchive (e :: tl) d = extractArchive tl
          (if protectedMember (memberName e.arcname) then d
           else fun q => if q = memberName e.arcname then some e.content else d q) := rfl
      by_cases htl : ∃ e' ∈ tl, memberName e'.arcname = nm
      · obtain ⟨e', he', hnm', hval⟩ := extractArchive_present tl
          (if protectedMember (memberName e.arcname) then d
           else fun q => if q = memberName e.arcname then some e.content else d q) nm hp htl
        exact ⟨e', List.mem_cons_of_mem _ he', hnm', by rw [hstep]; exact hval⟩
      · have hnme : memberName e.arcname = nm := by
          obtain ⟨e0, he0, hnm0⟩ := hex
          rcases List.mem_cons.mp he0 with rfl | h0
          · exact hnm0
          · exact absurd ⟨e0, h0, hnm0⟩ htl
        refine ⟨e, List.mem_cons_self _ _, hnme, ?_⟩
        rw [hstep,
          extractArchive_absent tl _ nm (fun e' he' hnm' => htl ⟨e', he', hnm'⟩)]
        have hpe : ¬ (protectedMember (memberName e.arcname) = true) := by
          rw [hnme, hp]; exact Bool.false_ne_true
        rw [if_neg hpe]
        simp [hnme]

theorem run_update_success_eq (w : World) (name : String) (info : ProjInfo)
    (archive : List ZipEntry) (fx : String → Bool)
    (h1 : w.projects.lookup name = some info)
    (h2 : resolveSource w info.update_url = Except.ok archive)
    (h3 : sidecarOk w archive) :
    run_update w name fx =
      { result := Except.ok (updateMsg name),
        deploy := extractArchive archive w.deploy,
        sideFx := sideFxList fx info.service } := by
  cases hs : w.sidecar with
  | none => simp [run_update, h1, h2, hs]
  | some expected =>
      have hexp : expected = w.sha archive := h3 expected hs
      simp [run_update, h1, h2, hs, hexp]

/-- C1: when a checksum sidecar exists for the fetched archive and its
recorded hash differs from the archive's content hash, run_update raises
the SHA256-mismatch error with no extraction performed: the deployment
directory is exactly as before and no post-extraction command runs. -/
theorem run_update_sha_mismatch_aborts (w : World) (name : String) (info : ProjInfo)
    (archive : List ZipEntry) (expected : String) (fx : String → Bool)
    (h1 : w.projects.lookup name = some info)
    (h2 : resolveSource w info.update_url = Except.ok archive)
    (hs : w.sidecar = some expected) (hne : expected ≠ w.sha archive) :
    (run_update w name fx).result = Except.error shaMismatchMsg
    ∧ (run_update w name fx).deploy = w.deploy
    ∧ (run_update w name fx).sideFx = [] := by
  refine ⟨?_, ?_, ?_⟩ <;> simp [run_update, h1, h2, hs, hne]

/-- C1 witness: the mismatching sidecar world, where run_update aborts with
the mismatch error and the deployment map is untouched. -/
theorem run_update_sha_mismatch_aborts_witness :
    (run_update c1world "demo" (fun _ => true)).result = Except.error shaMismatchMsg
    ∧ (run_update c1world "demo" (fun _ => true)).deploy = c1world.deploy
    ∧ (run_update c1world "demo" (fun _ => true)).sideFx = [] :=
  run_update_sha_mismatch_aborts c1world "demo" demoInfo demoArchive "deadbeef"
    (fun _ => true) rfl rfl rfl (by decide)

/-- C5: on the success path of run_update, every archive member matching
the protected venv-interpreter pattern is skipped — the deployed file at
that path keeps its prior contents — while any path carried by
non-protected members ends up holding contents taken from the archive. -/
theorem run_update_skips_protected (w : World) (name : String) (info : ProjInfo)
    (archive : List ZipEntry) (fx : String → Bool) (nm : String)
    (h1 : w.projects.lookup name = some info)
    (h2 : resolveSource w info.update_url = Except.ok archive)
    (h3 : sidecarOk w archive) :
    (protectedMember nm = true → (run_update w name fx).deploy nm = w.deploy nm)
    ∧ (protectedMember nm = false → (∃ e ∈ archive, memberName e.arcname = nm) →
        ∃ e ∈ archive, memberName e.arcname = nm ∧
          (run_update w name fx).deploy nm = some e.content) := by
  rw [run_update_success_eq w name info archive fx h1 h2 h3]
  exact ⟨fun hp => extractArchive_protected archive w.deploy nm hp,
         fun hp hex => extractArchive_present archive w.deploy nm hp hex⟩

/-- C5 witness: the member venv/bin/python3 matches the protected pattern
and the deployed interpreter at that path is left untouched. -/
theorem run_update_skips_protected_witness :
    protectedMember "venv/bin/python3" = true
    ∧ (run_update c5world "demo" (fun _ => true)).deploy "venv/bin/python3"
        = c5world.deploy "venv/bin/python3" :=
  ⟨by decide,
   (run_update_skips_protected c5world "demo" demoInfo demoArchive (fun _ => true)
      "venv/bin/python3" rfl rfl (fun _ h => Option.noConfusion h)).1 (by decide)⟩

/-- C7: once resolve and verify succeed, run_update returns the success
message naming the project, whatever the outcomes of the best-effort
commit/push and restart commands (the fx oracle), and the deployment
directory is the extraction of the archive. -/
theorem run_update_success_message (w : World) (name : String) (info : ProjInfo)
    (archive : List ZipEntry)
    (h1 : w.projects.lookup name = some info)
    (h2 : resolveSource w info.update_url = Except.ok archive)
    (h3 : sidecarOk w archive) :
    ∀ fx, (run_update w name fx).result = Except.ok (updateMsg name)
      ∧ strContains (updateMsg name) name = true
      ∧ (run_update w name fx).deploy = extractArchive archive w.deploy := by
  intro fx
  rw [run_update_success_eq w name info archive fx h1 h2 h3]
  exact ⟨rfl, strContains_append_left name " erfolgreich aktualisiert.", rfl⟩

/-- C7 witness: the demo project returns its success message even when
every best-effort command fails. -/
theorem run_update_success_message_witness :
    (run_update c5world "demo" (fun _ => false)).result = Except.ok (updateMsg "demo")
    ∧ strContains (updateMsg "demo") "demo" = true :=
  ⟨((run_update_success_message c5world "demo" demoInfo demoArchive rfl rfl
      (fun _ h => Option.noConfusion h)) (fun _ => false)).1,
   ((run_update_success_message c5world "demo" demoInfo demoArchive rfl rfl
      (fun _ h => Option.noConfusion h)) (fun _ => false)).2.1⟩

/-- C9: a name absent from the loaded configuration makes run_update raise
the unknown-project error whatever the disk, network, sidecar and
deployment state are — nothing is fetched or written, the deployment map
is returned unchanged — and serve mode surfaces it as a 500 response
carrying that message. -/
theorem run_update_unknown_project (projects : List (String × ProjInfo)) (name : String)
    (h : projects.lookup name = none)
    (localDisk : String → Option (List ZipEntry)) (net : String → Nat × List ZipEntry)
    (sc : Option String) (sha : List ZipEntry → String) (deploy : String → Option Bytes)
    (fx : String → Bool) :
    (run_update ⟨projects, localDisk, net, sc, sha, deploy⟩ name fx).result
        = Except.error (unknownProjectMsg name)
    ∧ (run_update ⟨projects, localDisk, net, sc, sha, deploy⟩ name fx).deploy = deploy
    ∧ (run_update ⟨projects, localDisk, net, sc, sha, deploy⟩ name fx).sideFx = []
    ∧ update_api ⟨projects, localDisk, net, sc, sha, deploy⟩ name fx
        = ApiResp.err 500 (unknownProjectMsg name) := by
  refine ⟨?_, ?_, ?_, ?_⟩ <;> simp [run_update, update_api, h]

/-- C9 witness: the empty configuration rejects the project name ghost with
the unknown-project error and a 500 response. -/
theorem run_update_unknown_project_witness :
    (run_update ⟨[], fun _ => none, fun _ => (200, []), none, fun _ => "", fun _ => none⟩
        "ghost" (fun _ => true)).result = Except.error (unknownProjectMsg "ghost")
    ∧ update_api ⟨[], fun _ => none, fun _ => (200, []), none, fun _ => "", fun _ => none⟩
        "ghost" (fun _ => true) = ApiResp.err 500 (unknownProjectMsg "ghost") :=
  ⟨(run_update_unknown_project [] "ghost" rfl (fun _ => none) (fun _ => (200, []))
      none (fun _ => "") (fun _ => none) (fun _ => true)).1,
   (run_update_unknown_project [] "ghost" rfl (fun _ => none) (fun _ => (200, []))
      none (fun _ => "") (fun _ => none) (fun _ => true)).2.2.2⟩

/-- C10: when a project's update_url starts with a slash but names no
existing local file, run_update reports no missing-file error: the resolve
step falls through to the network fetch with that string as URL, succeeds
exactly when the fetch answers 200, and on a non-200 answer run_update
fails with the download error. -/
theorem run_update_local_fallthrough (w : World) (name : String) (info : ProjInfo)
    (fx : String → Bool)
    (h1 : w.projects.lookup name = some info)
    (_hslash : strStartsWith info.update_url "/" = true)
    (hmiss : w.localDisk info.update_url = none) :
    resolveSource w info.update_url
      = (if (w.net info.update_url).1 = 200 then Except.ok (w.net info.update_url).2
         else Except.error
           ("Download fehlgeschlagen (" ++ toString (w.net info.update_url).1 ++ ")"))
    ∧ ((w.net info.update_url).1 ≠ 200 →
        (run_update w name fx).result
          = Except.error
            ("Download fehlgeschlagen (" ++ toString (w.net info.update_url).1 ++ ")")) := by
  have hres : resolveSource w info.update_url = netFetch w info.update_url := by
    rw [resolveSource, hmiss]
  constructor
  · rw [hres, netFetch]
  · intro h200
    have herr : resolveSource w info.update_url
        = Except.error
          ("Download fehlgeschlagen (" ++ toString (w.net info.update_url).1 ++ ")") := by
      rw [hres, netFetch, if_neg h200]
    simp [run_update, h1, herr]

/-- C10 witness: a slash-prefixed update_url that exists nowhere locally is
fetched from the network and fails with the 404 download error, not a
missing-file error. -/
theorem run_update_local_fallthrough_witness :
    (run_update c10world "demo" (fun _ => true)).result
      = Except.error "Download fehlgeschlagen (404)" :=
  (run_update_local_fallthrough c10world "demo" c10info (fun _ => true)
      rfl (by decide) rfl).2 (by decide)

/-- C6: git_versioning never lets an exception escape to the caller's
pipeline; when staging (git add, the one check=True step) succeeds, every
step runs to the end whatever the other outcomes are; when staging fails,
the steps after it never run — the one hard stop. -/
theorem git_versioning_best_effort (fx : GitStep → Bool) :
    (git_versioning fx).2 = false
    ∧ (fx GitStep.addAll = true →
        (git_versioning fx).1
          = [GitStep.fetch, GitStep.pullRebase, GitStep.addAll, GitStep.commit,
             GitStep.tag, GitStep.push, GitStep.pushTags])
    ∧ (fx GitStep.addAll = false →
        (git_versioning fx).1 = [GitStep.fetch, GitStep.pullRebase, GitStep.addAll]) := by
  by_cases h : fx GitStep.addAll = true <;>
    simp [git_versioning, git_versioning_body, h]

/-- C6 witness: with every command failing, staging's failure stops the
sequence right after the add step and nothing is raised to the caller. -/
theorem git_versioning_best_effort_witness :
    (git_versioning (fun _ => false)).2 = false
    ∧ (git_versioning (fun _ => false)).1
        = [GitStep.fetch, GitStep.pullRebase, GitStep.addAll] :=
  ⟨(git_versioning_best_effort (fun _ => false)).1,
   (git_versioning_best_effort (fun _ => false)).2.2 rfl⟩

theorem find?_append_of_none {α : Type} (p : α → Bool) :
    ∀ (l1 l2 : List α), l1.find? p = none → (l1 ++ l2).find? p = l2.find? p
  | [], _, _ => rfl
  | a :: l1, l2, h => by
      by_cases hpa : p a = true
      · rw [List.find?_cons_of_pos _ hpa] at h
        exact absurd h (by simp)
      · rw [List.find?_cons_of_neg _ hpa] at h
        rw [List.cons_append, List.find?_cons_of_neg _ hpa]
        exact find?_append_of_none p l1 l2 h

/-- C4: publishing is idempotent in the version tag: with a token present,
upload_release_to_github always settles on a release id, and a second run
with the same tag converges on the same release id with the remote state
unchanged (no duplicate release) — on the tag-already-exists conflict it
lists the releases and reuses the one whose tag matches exactly. -/
theorem upload_release_to_github_idempotent (s : GhState) (t : String) (tok : Bool)
    (htok : tok = true) :
    (upload_release_to_github tok s t).2.isSome = true
    ∧ (upload_release_to_github tok (upload_release_to_github tok s t).1 t).2
        = (upload_release_to_github tok s t).2
    ∧ (upload_release_to_github tok (upload_release_to_github tok s t).1 t).1
        = (upload_release_to_github tok s t).1 := by
  subst htok
  by_cases hany : s.releases.any (fun r => r.tag_name == t) = true
  · have hcr : createRelease s t = (s, 422, none) := by
      rw [createRelease, if_pos hany]
    have h1 : upload_release_to_github true s t
        = (s, (s.releases.find? fun r => r.tag_name == t).map fun r => r.rid) := by
      simp [upload_release_to_github, hcr]
    obtain ⟨x, hx, hpx⟩ := List.any_eq_true.mp hany
    have hfind : ((s.releases.find? fun r => r.tag_name == t).isSome) = true :=
      List.find?_isSome.mpr ⟨x, hx, hpx⟩
    refine ⟨?_, ?_, ?_⟩
    · rw [h1]
      simpa using hfind
    · rw [h1, h1]
    · rw [h1, h1]
  · have hcr : createRelease s t
        = ({ releases := s.releases ++ [⟨s.nextId, t⟩], nextId := s.nextId + 1 },
           201, some s.nextId) := by
      rw [createRelease, if_neg hany]
    have h1 : upload_release_to_github true s t
        = ({ releases := s.releases ++ [⟨s.nextId, t⟩], nextId := s.nextId + 1 },
           some s.nextId) := by
      simp [upload_release_to_github, hcr]
    have hany1 : (s.releases ++ [(⟨s.nextId, t⟩ : Release)]).any
        (fun r => r.tag_name == t) = true :=
      List.any_eq_true.mpr ⟨⟨s.nextId, t⟩, by simp, by simp⟩
    have hcr1 : createRelease
        { releases := s.releases ++ [⟨s.nextId, t⟩], nextId := s.nextId + 1 } t
        = ({ releases := s.releases ++ [⟨s.nextId, t⟩], nextId := s.nextId + 1 },
           422, none) := by
      rw [createRelease]
      exact if_pos hany1
    have hall : ∀ x ∈ s.releases, ¬ x.tag_name = t := by simpa using hany
    have hfind0 : s.releases.find? (fun r => r.tag_name == t) = none := by
      rw [List.find?_eq_none]
      intro x hx
      simp [hall x hx]
    have hfind1 : (s.releases ++ [(⟨s.nextId, t⟩ : Release)]).find?
        (fun r => r.tag_name == t) = some ⟨s.nextId, t⟩ := by
      rw [find?_append_of_none _ _ _ hfind0]
      simp [List.find?]
    have h2 : upload_release_to_github true
        { releases := s.releases ++ [⟨s.nextId, t⟩], nextId := s.nextId + 1 } t
        = ({ releases := s.releases ++ [⟨s.nextId, t⟩], nextId := s.nextId + 1 },
           some s.nextId) := by
      simp [upload_release_to_github, hcr1, hfind1]
    refine ⟨?_, ?_, ?_⟩
    · rw [h1]
      rfl
    · rw [h1]
      rw [h2]
    · rw [h1]
      rw [h2]

/-- C4 witness: publishing tag v1 twice against an empty remote yields a
release id the first time and the identical id and state the second
time. -/
theorem upload_release_to_github_idempotent_witness :
    (upload_release_to_github true ⟨[], 0⟩ "v1").2.isSome = true
    ∧ (upload_release_to_github true (upload_release_to_github true ⟨[], 0⟩ "v1").1 "v1").2
        = (upload_release_to_github true ⟨[], 0⟩ "v1").2 :=
  ⟨(upload_release_to_github_idempotent ⟨[], 0⟩ "v1" true rfl).1,
   (upload_release_to_github_idempotent ⟨[], 0⟩ "v1" true rfl).2.1⟩

end AiUpdater
